import Mathlib

/-!
Shallow embedding of the day-use revenue prediction engine, the holiday
classifier, the dashboard pricing computation, and the localStorage
merge routine of the accommodation cost calculator, together with proofs
of the specification's claims about them.

Sources embedded:
  * `src/src/utils/prediction.js` (prediction engine + holiday utilities)
  * `src/src/components/Dashboard.jsx` (pricing computation)
  * the localStorage utility file (`mergeDayuseData`)

Modelling conventions:
  * JS numbers appearing as nonnegative integers are `Nat`; where the JS
    value can go negative (room arithmetic) we use `Int`.
  * `Math.round(a / b)` on nonnegative integers is `jsRound a b`
    (round half up), `Math.ceil(a / b)` is `jsCeilDiv a b`.
  * JS objects used as string-keyed dictionaries, and JS `Map`s, are
    association lists in insertion order, which matches the enumeration
    order of `Object.entries` / `Map.values` for these keys.
  * `new Date("YYYY-MM-DD").getDay()` is modelled with the local timezone
    taken to be UTC, via Zeller's congruence on the parsed triple.
-/

/-- Models `Math.round(a / b)` for nonnegative integers `a`, `b > 0`:
round half away from zero (here: half up). -/
def jsRound (a b : Nat) : Nat := (2 * a + b) / (2 * b)

/-- Models `Math.ceil(a / b)` for nonnegative integer `a` and positive `b`. -/
def jsCeilDiv (a b : Nat) : Nat := (a + b - 1) / b

/-- Digits of a decimal char list to a number (used to parse "YYYY-MM-DD"). -/
def digitsToNat (cs : List Char) : Nat :=
  cs.foldl (fun n c => 10 * n + (c.toNat - 48)) 0

/-- Split a char list on the dash character. -/
def splitOnDash : List Char → List (List Char)
  | [] => [[]]
  | c :: rest =>
    let r := splitOnDash rest
    if c = '-' then [] :: r
    else
      match r with
      | [] => [[c]]
      | g :: gs => (c :: g) :: gs

/-- Parse a `"YYYY-MM-DD"` date string into `(year, month, day)`.
Models `new Date(dateStr)` for the well-formed strings the engine sees. -/
def parseDateStr (s : String) : Nat × Nat × Nat :=
  match (splitOnDash s.data).map digitsToNat with
  | [y, m, d] => (y, m, d)
  | _ => (0, 0, 0)

/-- Models `Date.prototype.getDay` (0 = Sunday .. 6 = Saturday) on a calendar
triple, via Zeller's congruence for the Gregorian calendar. -/
def jsGetDay (y m d : Nat) : Nat :=
  let y' := if m ≤ 2 then y - 1 else y
  let m' := if m ≤ 2 then m + 12 else m
  let K := y' % 100
  let J := y' / 100
  let h := (d + 13 * (m' + 1) / 5 + K + K / 4 + J / 4 + 5 * J) % 7
  (h + 6) % 7

/-- Weekday of a date string, `new Date(dateStr).getDay()`. -/
def dateStrGetDay (s : String) : Nat :=
  let (y, m, d) := parseDateStr s
  jsGetDay y m d

/-- Zero-padding to two digits, `String(n).padStart(2, '0')`. -/
def pad2 (n : Nat) : String :=
  if n < 10 then "0" ++ toString n else toString n

/-- The `formatDate` helper of the holiday utilities: canonical `YYYY-MM-DD` key. -/
def formatDate (y m d : Nat) : String :=
  toString y ++ "-" ++ pad2 m ++ "-" ++ pad2 d

/-! ## Holiday classifier (`holidays` utilities) -/

/-- The session's holiday cache: year ↦ list of `YYYY-MM-DD` holiday keys,
in insertion order.  Models the module-level `holidayCache` `Map`. -/
abbrev HolidayCache := List (Nat × List String)

/-- Lookup `holidayCache.get(year)` (`none` when the year was never cached). -/
def lookupYear : HolidayCache → Nat → Option (List String)
  | [], _ => none
  | (y, t) :: rest, q => if y = q then some t else lookupYear rest q

/-- The `isHolidaySync` check on a calendar triple: false when the year is uncached,
otherwise membership of the canonical date key in the cached table. -/
def isHolidaySyncYMD (cache : HolidayCache) (y m d : Nat) : Bool :=
  match lookupYear cache y with
  | none => false
  | some holidays => holidays.contains (formatDate y m d)

/-- The `isHolidaySync` check on a date string (the string-typed path:
`new Date(dateStr)` then `getFullYear`/`formatDate`). -/
def isHolidaySyncStr (cache : HolidayCache) (s : String) : Bool :=
  let (y, m, d) := parseDateStr s
  isHolidaySyncYMD cache y m d

/-- Outcome of one `fetchHolidays` call: the returned table, the cache
afterwards, and whether a network request was issued. -/
structure FetchOutcome where
  table : List String
  cache : HolidayCache
  fetched : Bool

/-- The `fetchHolidays(year)` call with the network modelled as an oracle
`net : year ↦ some table` (success) `| none` (fetch or parse failure).
A cache hit returns without fetching; a successful fetch caches the
table; a failed fetch returns the empty table and leaves the cache
unchanged (the `catch` branch returns `{}` without a `cache.set`). -/
def fetchHolidays (net : Nat → Option (List String)) (cache : HolidayCache)
    (year : Nat) : FetchOutcome :=
  match lookupYear cache year with
  | some tbl => ⟨tbl, cache, false⟩
  | none =>
    match net year with
    | some tbl => ⟨tbl, cache ++ [(year, tbl)], true⟩
    | none => ⟨[], cache, true⟩

/-! ## Prediction engine (`prediction.js`) -/

/-- One historical day-use record as the prediction engine reads it:
only `date` and `price` are consulted (`id` is carried along). -/
structure DayuseItem where
  id : String
  date : String
  price : Nat
deriving DecidableEq

/-- One per-date aggregate: `{ count, revenue }`. -/
structure DailyTotal where
  count : Nat
  revenue : Nat
deriving DecidableEq

/-- The result object of `predictDayuseRevenue`. -/
structure PredictionResult where
  count : Nat
  revenue : Nat
  avgPrice : Nat
  hasData : Bool
  basis : String
deriving DecidableEq

/-- One step of `groupByDate`'s `forEach`: bump the aggregate of the
item's date key, creating the key on first sight (JS object keys keep
insertion order, modelled by appending). -/
def addItem (acc : List (String × DailyTotal)) (item : DayuseItem) :
    List (String × DailyTotal) :=
  if acc.any (fun p => p.1 == item.date) then
    acc.map (fun p =>
      if p.1 == item.date then (p.1, ⟨p.2.count + 1, p.2.revenue + item.price⟩)
      else p)
  else acc ++ [(item.date, ⟨1, item.price⟩)]

/-- The `groupByDate` helper: per-date aggregates in first-seen order. -/
def groupByDate (dayuseData : List DayuseItem) : List (String × DailyTotal) :=
  dayuseData.foldl addItem []

/-- The `calculateAverage` helper: rounded means of per-date counts and revenues. -/
def calculateAverage (dailyDataArray : List DailyTotal) (basis : String) :
    PredictionResult :=
  if dailyDataArray.isEmpty then ⟨0, 0, 0, false, basis⟩
  else
    let totalCount := dailyDataArray.foldl (fun sum d => sum + d.count) 0
    let totalRevenue := dailyDataArray.foldl (fun sum d => sum + d.revenue) 0
    let numDays := dailyDataArray.length
    let avgCount := jsRound totalCount numDays
    let avgRevenue := jsRound totalRevenue numDays
    let avgPrice := if avgCount > 0 then jsRound avgRevenue avgCount else 0
    ⟨avgCount, avgRevenue, avgPrice, true, basis⟩

/-- The `dayNames` array `['日','月','火','水','木','金','土']`. -/
def dayNames : List String := ["日", "月", "火", "水", "木", "金", "土"]

/-- The `predictFromDayOfWeek` helper: average the aggregates of the target weekday,
falling back to the overall average when that weekday has no data. -/
def predictFromDayOfWeek (dayuseData : List DayuseItem) (dayOfWeek : Nat)
    (basisOverride : Option String) : PredictionResult :=
  let dailyTotals := groupByDate dayuseData
  let sameDayData := dailyTotals.filter (fun p => dateStrGetDay p.1 == dayOfWeek)
  if sameDayData.isEmpty then
    calculateAverage (dailyTotals.map (fun p => p.2)) "全体平均（曜日データなし）"
  else
    calculateAverage (sameDayData.map (fun p => p.2))
      (basisOverride.getD ((dayNames.getD dayOfWeek "") ++ "曜日の過去平均"))

/-- The `predictFromHolidayData` helper: average the holiday-dated aggregates,
`none` when the history has no holiday-dated day. -/
def predictFromHolidayData (cache : HolidayCache) (dayuseData : List DayuseItem) :
    Option PredictionResult :=
  let dailyTotals := groupByDate dayuseData
  let holidayDays := dailyTotals.filter (fun p => isHolidaySyncStr cache p.1)
  if holidayDays.isEmpty then none
  else some (calculateAverage (holidayDays.map (fun p => p.2)) "祝日の過去平均")

/-- The exported `predictDayuseRevenue(dayuseData, targetDate)`, the target date given
as a calendar triple and the holiday cache passed explicitly. -/
def predictDayuseRevenue (cache : HolidayCache) (dayuseData : List DayuseItem)
    (ty tm td : Nat) : PredictionResult :=
  if dayuseData.isEmpty then ⟨0, 0, 0, false, "データなし"⟩
  else
    let dayOfWeek := jsGetDay ty tm td
    if isHolidaySyncYMD cache ty tm td then
      match predictFromHolidayData cache dayuseData with
      | some p => p
      | none => predictFromDayOfWeek dayuseData 6 (some "祝日（土曜日データで代用）")
    else
      predictFromDayOfWeek dayuseData dayOfWeek none

/-! ## Pricing computation (`Dashboard.jsx`) -/

/-- The derived pricing quantities of one dashboard render. -/
structure PricingContext where
  dailyTarget : Nat
  dayuseRevenue : Nat
  remainingRooms : Nat
  minimumPrice : Nat
deriving DecidableEq

/-- Daily target: `monthlyTarget > 0 ? Math.round(monthlyTarget / daysInMonth) : 0`. -/
def dashboardDailyTarget (monthlyTarget daysInMonth : Nat) : Nat :=
  if monthlyTarget > 0 then jsRound monthlyTarget daysInMonth else 0

/-- Day-use revenue: manual `count × avgPrice` when both are positive,
else the prediction's revenue. -/
def dashboardDayuseRevenue (dayuseCount dayuseAvgPrice predictionRevenue : Nat) : Nat :=
  if dayuseCount > 0 && dayuseAvgPrice > 0 then dayuseCount * dayuseAvgPrice
  else predictionRevenue

/-- Remaining rooms `Math.max(1, totalRooms - stay)`, over the integers as in JS, where
the subtraction can go negative. -/
def remainingRoomsInt (totalRooms stay : Int) : Int :=
  max 1 (totalRooms - stay)

/-- The `minimumPrice` memo: 0 when no target is set or the target is
already covered, else `Math.ceil(requiredRevenue / remainingRooms)`. -/
def dashboardMinimumPrice (dailyTarget dayuseRevenue remainingRooms : Nat) : Nat :=
  if dailyTarget = 0 then 0
  else if dailyTarget ≤ dayuseRevenue then 0
  else jsCeilDiv (dailyTarget - dayuseRevenue) remainingRooms

/-- The whole pricing computation of one dashboard render, from the
parsed inputs and the prediction's revenue. -/
def computePricing (monthlyTarget daysInMonth totalRooms dayuseCount
    dayuseAvgPrice stayCount predictionRevenue : Nat) : PricingContext :=
  let dt := dashboardDailyTarget monthlyTarget daysInMonth
  let rev := dashboardDayuseRevenue dayuseCount dayuseAvgPrice predictionRevenue
  let rem := (remainingRoomsInt (totalRooms : Int) (stayCount : Int)).toNat
  ⟨dt, rev, rem, dashboardMinimumPrice dt rev rem⟩

/-! ## `mergeDayuseData` (localStorage utilities) -/

/-- A JS field value as it appears in a day-use record. -/
inductive JsValue where
  | str : String → JsValue
  | num : Int → JsValue
deriving DecidableEq

/-- A stored record: its `id` (the empty string models a missing or
otherwise falsy id) and its remaining fields in key order. -/
structure JsRecord where
  id : String
  fields : List (String × JsValue)
deriving DecidableEq

/-- First binding of a key in a field list. -/
def lookupField : List (String × JsValue) → String → Option JsValue
  | [], _ => none
  | (k, v) :: rest, q => if k = q then some v else lookupField rest q

/-- Field list of `{...old, ...new}`: old keys in place with new values
where overridden, then the new-only keys. -/
def spreadFields (old new : List (String × JsValue)) : List (String × JsValue) :=
  (old.map (fun p =>
    match lookupField new p.1 with
    | some v => (p.1, v)
    | none => p))
  ++ new.filter (fun q => (lookupField old q.1).isNone)

/-- The spread `{...old, ...item}` in the update branch of `mergeDayuseData`, where
`item.id` is truthy (so the spread's id is `item.id`). -/
def jsSpread (old new : JsRecord) : JsRecord :=
  ⟨new.id, spreadFields old.fields new.fields⟩

/-- The id-keyed `Map` of `mergeDayuseData`, in insertion order. -/
abbrev RecMap := List (String × JsRecord)

/-- Membership `dataMap.has(k)`. -/
def mapHas (m : RecMap) (k : String) : Bool :=
  m.any (fun p => p.1 == k)

/-- Lookup `dataMap.get(k)`; the default is unreachable in the code, which only
reads keys it has. -/
def mapGet : RecMap → String → JsRecord
  | [], _ => ⟨"", []⟩
  | p :: rest, k => if p.1 == k then p.2 else mapGet rest k

/-- Insertion `dataMap.set(k, v)`: update in place, else append (JS `Map`s keep
insertion order and keep the slot of an updated key). -/
def mapSet (m : RecMap) (k : String) (v : JsRecord) : RecMap :=
  if mapHas m k then m.map (fun p => if p.1 == k then (k, v) else p)
  else m ++ [(k, v)]

/-- First loop of `mergeDayuseData`: map the existing records by id,
skipping records with a falsy id. -/
def buildIdMap (existingData : List JsRecord) : RecMap :=
  existingData.foldl
    (fun m item => if item.id == "" then m else mapSet m item.id item) []

/-- One step of the second loop: skip a falsy id, overwrite an existing
id with the shallow spread, append a new id. -/
def mergeStep (acc : RecMap × Nat × Nat) (item : JsRecord) : RecMap × Nat × Nat :=
  if item.id == "" then acc
  else if mapHas acc.1 item.id then
    (mapSet acc.1 item.id (jsSpread (mapGet acc.1 item.id) item),
     acc.2.1, acc.2.2 + 1)
  else (mapSet acc.1 item.id item, acc.2.1 + 1, acc.2.2)

/-- Result object of `mergeDayuseData` together with the saved array. -/
structure MergeResult where
  added : Nat
  updated : Nat
  total : Nat
  data : List JsRecord
deriving DecidableEq

/-- The exported `mergeDayuseData`: id-keyed upsert of `newData` into `existingData`,
returning the counters and the merged array that gets saved. -/
def mergeDayuseData (existingData newData : List JsRecord) : MergeResult :=
  let m0 := buildIdMap existingData
  let res := newData.foldl mergeStep (m0, 0, 0)
  ⟨res.2.1, res.2.2, res.1.length, res.1.map (fun p => p.2)⟩

/-! ## Helper lemmas -/

theorem jsRound_pos (a b : Nat) (hb : 1 ≤ b) (hab : b ≤ a) : 1 ≤ jsRound a b := by
  unfold jsRound
  rw [Nat.le_div_iff_mul_le (by omega)]
  omega

theorem calculateAverage_basis (l : List DailyTotal) (b : String) :
    (calculateAverage l b).basis = b := by
  unfold calculateAverage
  split <;> rfl

/-- The shared averaging invariant of `calculateAverage`, in both of its
branches. -/
theorem calculateAverage_inv (l : List DailyTotal) (b : String) :
    (0 < (calculateAverage l b).count →
      (calculateAverage l b).avgPrice =
        jsRound (calculateAverage l b).revenue (calculateAverage l b).count) ∧
    ((calculateAverage l b).count = 0 → (calculateAverage l b).avgPrice = 0) ∧
    ((calculateAverage l b).hasData = false →
      (calculateAverage l b).count = 0 ∧ (calculateAverage l b).revenue = 0 ∧
        (calculateAverage l b).avgPrice = 0) := by
  unfold calculateAverage
  split
  · simp
  · simp only []
    refine ⟨?_, ?_, ?_⟩
    · intro h
      split
      · rfl
      · omega
    · intro h
      split
      · omega
      · rfl
    · intro h
      simp at h

theorem calculateAverage_hasData (l : List DailyTotal) (b : String) (h : l ≠ []) :
    (calculateAverage l b).hasData = true := by
  unfold calculateAverage
  rw [if_neg]
  simpa using h

theorem foldl_count_le (l : List DailyTotal) :
    ∀ n : Nat, (∀ d ∈ l, 1 ≤ d.count) →
      n + l.length ≤ l.foldl (fun sum d => sum + d.count) n := by
  induction l with
  | nil => simp
  | cons x xs ih =>
    intro n h
    simp only [List.foldl_cons, List.length_cons]
    have h1 : 1 ≤ x.count := h x (by simp)
    have h2 := ih (n + x.count) (fun d hd => h d (by simp [hd]))
    omega

theorem calculateAverage_count_pos (l : List DailyTotal) (b : String)
    (h : l ≠ []) (hc : ∀ d ∈ l, 1 ≤ d.count) :
    1 ≤ (calculateAverage l b).count := by
  unfold calculateAverage
  rw [if_neg (by simpa using h)]
  apply jsRound_pos
  · exact List.length_pos.mpr h
  · have := foldl_count_le l 0 hc
    omega

theorem foldl_addItem_count_pos (data : List DayuseItem) :
    ∀ acc, (∀ p ∈ acc, 1 ≤ p.2.count) →
      ∀ p ∈ data.foldl addItem acc, 1 ≤ p.2.count := by
  induction data with
  | nil => intro acc h; simpa using h
  | cons x xs ih =>
    intro acc h
    apply ih
    intro p hp
    unfold addItem at hp
    split at hp
    · rcases List.mem_map.mp hp with ⟨q, hq, rfl⟩
      by_cases hq1 : q.1 == x.date
      · simp only [hq1, if_pos]
        omega
      · simp only [hq1]
        simp only [Bool.false_eq_true, if_false]
        exact h q hq
    · rcases List.mem_append.mp hp with hq | hq
      · exact h p hq
      · simp only [List.mem_singleton] at hq
        subst hq
        exact le_refl 1

theorem groupByDate_count_pos (data : List DayuseItem) :
    ∀ p ∈ groupByDate data, 1 ≤ p.2.count :=
  foldl_addItem_count_pos data [] (by simp)

theorem addItem_length_le (acc : List (String × DailyTotal)) (x : DayuseItem) :
    acc.length ≤ (addItem acc x).length := by
  unfold addItem
  split
  · simp
  · simp

theorem foldl_addItem_length_le (data : List DayuseItem) :
    ∀ acc : List (String × DailyTotal),
      acc.length ≤ (data.foldl addItem acc).length := by
  induction data with
  | nil => simp
  | cons x xs ih =>
    intro acc
    calc acc.length ≤ (addItem acc x).length := addItem_length_le acc x
      _ ≤ _ := ih (addItem acc x)

theorem groupByDate_ne_nil (data : List DayuseItem) (h : data ≠ []) :
    groupByDate data ≠ [] := by
  match data with
  | [] => exact absurd rfl h
  | x :: xs =>
    show xs.foldl addItem (addItem [] x) ≠ []
    have h1 : (addItem [] x).length = 1 := by
      unfold addItem
      simp
    have h2 := foldl_addItem_length_le xs (addItem [] x)
    intro hnil
    rw [hnil] at h2
    simp [h1] at h2

theorem addItem_key_mem_of (acc : List (String × DailyTotal)) (y : DayuseItem)
    (k : String) (h : k ∈ acc.map (fun p => p.1)) :
    k ∈ (addItem acc y).map (fun p => p.1) := by
  unfold addItem
  split
  · rcases List.mem_map.mp h with ⟨q, hq, rfl⟩
    apply List.mem_map.mpr
    refine ⟨if q.1 == y.date then (q.1, ⟨q.2.count + 1, q.2.revenue + y.price⟩) else q,
      List.mem_map_of_mem _ hq, ?_⟩
    by_cases hq1 : q.1 == y.date <;> simp [hq1]
  · simp only [List.map_append, List.mem_append]
    exact Or.inl h

theorem addItem_key_self (acc : List (String × DailyTotal)) (y : DayuseItem) :
    y.date ∈ (addItem acc y).map (fun p => p.1) := by
  unfold addItem
  split
  · rename_i hany
    rcases List.any_eq_true.mp hany with ⟨q, hq, hq1⟩
    apply List.mem_map.mpr
    refine ⟨(q.1, ⟨q.2.count + 1, q.2.revenue + y.price⟩), ?_, ?_⟩
    · apply List.mem_map.mpr
      exact ⟨q, hq, by simp [hq1]⟩
    · simpa using beq_iff_eq.mp hq1
  · simp

theorem foldl_addItem_key_preserved (data : List DayuseItem) :
    ∀ acc k, k ∈ acc.map (fun p => p.1) →
      k ∈ (data.foldl addItem acc).map (fun p => p.1) := by
  induction data with
  | nil => intro acc k h; simpa using h
  | cons x xs ih =>
    intro acc k h
    exact ih (addItem acc x) k (addItem_key_mem_of acc x k h)

/-- Every record's date shows up among the keys of `groupByDate`. -/
theorem groupByDate_key_of_mem (data : List DayuseItem) :
    ∀ acc x, x ∈ data →
      x.date ∈ ((data.foldl addItem acc).map (fun p => p.1)) := by
  induction data with
  | nil => intro acc x hx; simp at hx
  | cons y ys ih =>
    intro acc x hx
    rcases List.mem_cons.mp hx with rfl | hx
    · exact foldl_addItem_key_preserved ys (addItem acc x) x.date
        (addItem_key_self acc x)
    · exact ih (addItem acc y) x hx

theorem addItem_key_cases (acc : List (String × DailyTotal)) (y : DayuseItem)
    (k : String) (h : k ∈ (addItem acc y).map (fun p => p.1)) :
    k ∈ acc.map (fun p => p.1) ∨ k = y.date := by
  unfold addItem at h
  split at h
  · left
    rcases List.mem_map.mp h with ⟨q, hq, rfl⟩
    rcases List.mem_map.mp hq with ⟨r, hr, rfl⟩
    by_cases hr1 : r.1 == y.date
    · simp only [hr1, if_pos]
      exact List.mem_map_of_mem _ hr
    · simp only [hr1]
      simp only [Bool.false_eq_true, if_false]
      exact List.mem_map_of_mem _ hr
  · simp only [List.map_append, List.mem_append] at h
    rcases h with h | h
    · exact Or.inl h
    · simp at h
      exact Or.inr h

/-- Every key of `groupByDate` is the date of some record. -/
theorem groupByDate_key_in_dates (data : List DayuseItem) :
    ∀ acc p, p ∈ data.foldl addItem acc →
      p.1 ∈ acc.map (fun q => q.1) ∨ ∃ x ∈ data, x.date = p.1 := by
  induction data with
  | nil =>
    intro acc p hp
    exact Or.inl (List.mem_map_of_mem _ hp)
  | cons y ys ih =>
    intro acc p hp
    rcases ih (addItem acc y) p hp with h | h
    · rcases addItem_key_cases acc y p.1 h with h1 | h1
      · exact Or.inl h1
      · exact Or.inr ⟨y, by simp, h1.symm⟩
    · rcases h with ⟨x, hx, hxd⟩
      exact Or.inr ⟨x, by simp [hx], hxd⟩

/-- Either branch of `predictFromDayOfWeek` averages a list of per-date
aggregates that is non-empty whenever the history is, all of whose
counts are positive. -/
theorem predictFromDayOfWeek_shape (data : List DayuseItem) (dow : Nat)
    (bo : Option String) :
    ∃ l b, predictFromDayOfWeek data dow bo = calculateAverage l b ∧
      (data ≠ [] → l ≠ []) ∧ (∀ d ∈ l, 1 ≤ d.count) := by
  unfold predictFromDayOfWeek
  dsimp only
  split
  · refine ⟨_, _, rfl, ?_, ?_⟩
    · intro h
      simpa [List.map_eq_nil_iff] using groupByDate_ne_nil data h
    · intro d hd
      rcases List.mem_map.mp hd with ⟨p, hp, rfl⟩
      exact groupByDate_count_pos data p hp
  · rename_i hne
    refine ⟨_, _, rfl, ?_, ?_⟩
    · intro _
      simp only [ne_eq, List.map_eq_nil_iff]
      intro hf
      exact hne (by simp [hf])
    · intro d hd
      rcases List.mem_map.mp hd with ⟨p, hp, rfl⟩
      exact groupByDate_count_pos data p (List.mem_of_mem_filter hp)

/-- A successful `predictFromHolidayData` is the average of a non-empty
list of aggregates with positive counts. -/
theorem predictFromHolidayData_shape (cache : HolidayCache)
    (data : List DayuseItem) (p : PredictionResult)
    (h : predictFromHolidayData cache data = some p) :
    ∃ l b, p = calculateAverage l b ∧ l ≠ [] ∧ ∀ d ∈ l, 1 ≤ d.count := by
  unfold predictFromHolidayData at h
  dsimp only at h
  split at h
  · exact absurd h (by simp)
  · rename_i hne
    rcases Option.some.inj h with rfl
    refine ⟨_, _, rfl, ?_, ?_⟩
    · simp only [ne_eq, List.map_eq_nil_iff]
      intro hf
      exact hne (by simp [hf])
    · intro d hd
      rcases List.mem_map.mp hd with ⟨q, hq, rfl⟩
      exact groupByDate_count_pos data q (List.mem_of_mem_filter hq)

/-- Every `predictDayuseRevenue` output is either the empty-history
literal or `calculateAverage` of a non-empty aggregate list with
positive counts. -/
theorem predict_shape (cache : HolidayCache) (data : List DayuseItem)
    (ty tm td : Nat) :
    (data = [] ∧
      predictDayuseRevenue cache data ty tm td = ⟨0, 0, 0, false, "データなし"⟩) ∨
    (data ≠ [] ∧ ∃ l b,
      predictDayuseRevenue cache data ty tm td = calculateAverage l b ∧
      l ≠ [] ∧ ∀ d ∈ l, 1 ≤ d.count) := by
  unfold predictDayuseRevenue
  split
  · rename_i hemp
    exact Or.inl ⟨by simpa using hemp, rfl⟩
  · rename_i hemp
    have hne : data ≠ [] := by simpa using hemp
    right
    refine ⟨hne, ?_⟩
    split
    · split
      · rename_i p hp
        rcases predictFromHolidayData_shape cache data p hp with ⟨l, b, rfl, hl, hc⟩
        exact ⟨l, b, rfl, hl, hc⟩
      · rcases predictFromDayOfWeek_shape data 6 (some "祝日（土曜日データで代用）")
          with ⟨l, b, heq, hl, hc⟩
        exact ⟨l, b, heq, hl hne, hc⟩
    · rcases predictFromDayOfWeek_shape data (jsGetDay ty tm td) none
        with ⟨l, b, heq, hl, hc⟩
      exact ⟨l, b, heq, hl hne, hc⟩

/-! ## C2, C3, C9 -/

/-- C2: every `PredictionResult` returned by `predictDayuseRevenue`
satisfies `avgPrice = round(revenue / count)` when `count > 0`,
`avgPrice = 0` when `count = 0`, and `hasData = false` implies `count`,
`revenue` and `avgPrice` are all 0. -/
theorem predict_price_inv (cache : HolidayCache) (data : List DayuseItem)
    (ty tm td : Nat) :
    (0 < (predictDayuseRevenue cache data ty tm td).count →
      (predictDayuseRevenue cache data ty tm td).avgPrice =
        jsRound (predictDayuseRevenue cache data ty tm td).revenue
          (predictDayuseRevenue cache data ty tm td).count) ∧
    ((predictDayuseRevenue cache data ty tm td).count = 0 →
      (predictDayuseRevenue cache data ty tm td).avgPrice = 0) ∧
    ((predictDayuseRevenue cache data ty tm td).hasData = false →
      (predictDayuseRevenue cache data ty tm td).count = 0 ∧
      (predictDayuseRevenue cache data ty tm td).revenue = 0 ∧
      (predictDayuseRevenue cache data ty tm td).avgPrice = 0) := by
  rcases predict_shape cache data ty tm td with ⟨_, heq⟩ | ⟨_, l, b, heq, _, _⟩
  · rw [heq]
    simp
  · rw [heq]
    exact calculateAverage_inv l b

/-- C2 witness: the `count > 0` branch of the invariant evaluated on a
concrete two-record Monday history. -/
theorem predict_price_inv_witness :
    (predictDayuseRevenue []
        [⟨"1", "2024-01-08", 5000⟩, ⟨"2", "2024-01-15", 7000⟩] 2024 1 22).avgPrice
      = jsRound
          (predictDayuseRevenue []
            [⟨"1", "2024-01-08", 5000⟩, ⟨"2", "2024-01-15", 7000⟩] 2024 1 22).revenue
          (predictDayuseRevenue []
            [⟨"1", "2024-01-08", 5000⟩, ⟨"2", "2024-01-15", 7000⟩] 2024 1 22).count :=
  (predict_price_inv []
    [⟨"1", "2024-01-08", 5000⟩, ⟨"2", "2024-01-15", 7000⟩] 2024 1 22).1 (by decide)

/-- C3: `predict` returns `hasData = true` exactly for non-empty
history, and returns the exact `{0, 0, 0, false, "データなし"}` record
("no data") on empty history. -/
theorem predict_hasData_iff (cache : HolidayCache) (data : List DayuseItem)
    (ty tm td : Nat) :
    ((predictDayuseRevenue cache data ty tm td).hasData = true ↔ data ≠ []) ∧
    predictDayuseRevenue cache [] ty tm td = ⟨0, 0, 0, false, "データなし"⟩ := by
  constructor
  · rcases predict_shape cache data ty tm td with ⟨hnil, heq⟩ | ⟨hne, l, b, heq, hl, _⟩
    · rw [heq]
      subst hnil
      simp
    · rw [heq, calculateAverage_hasData l b hl]
      simp [hne]
  · rfl

/-- C3 witness: a one-record history has data. -/
theorem predict_hasData_iff_witness :
    (predictDayuseRevenue [] [⟨"1", "2024-01-08", 5000⟩] 2024 1 22).hasData = true :=
  ((predict_hasData_iff [] [⟨"1", "2024-01-08", 5000⟩] 2024 1 22).1).mpr (by decide)

/-- C9: on every non-empty history the prediction's `count` is at least
1 — every per-date aggregate has `count ≥ 1`, so the rounded mean of a
non-empty set of them is ≥ 1 — hence the `avgCount > 0` guard always
takes the division branch: `avgPrice = round(revenue / count)`. -/
theorem predict_count_pos (cache : HolidayCache) (data : List DayuseItem)
    (ty tm td : Nat) (h : data ≠ []) :
    1 ≤ (predictDayuseRevenue cache data ty tm td).count ∧
    (predictDayuseRevenue cache data ty tm td).avgPrice =
      jsRound (predictDayuseRevenue cache data ty tm td).revenue
        (predictDayuseRevenue cache data ty tm td).count := by
  rcases predict_shape cache data ty tm td with ⟨hnil, _⟩ | ⟨_, l, b, heq, hl, hc⟩
  · exact absurd hnil h
  · rw [heq]
    have h1 := calculateAverage_count_pos l b hl hc
    exact ⟨h1, (calculateAverage_inv l b).1 h1⟩

/-- C9 witness: positive predicted count on a concrete one-record history. -/
theorem predict_count_pos_witness :
    1 ≤ (predictDayuseRevenue [] [⟨"1", "2024-01-08", 5000⟩] 2024 1 22).count :=
  (predict_count_pos [] [⟨"1", "2024-01-08", 5000⟩] 2024 1 22 (by decide)).1

/-! ## C4 -/

/-- C4: when the target date is classified as a holiday, no record of
the history is dated on a holiday, and at least one record is dated on
a Saturday, `predict` returns the average over the Saturday-dated
aggregates with the basis announcing the Saturday substitution. -/
theorem predict_holiday_saturday_fallback (cache : HolidayCache)
    (data : List DayuseItem) (ty tm td : Nat)
    (hne : data ≠ [])
    (hhol : isHolidaySyncYMD cache ty tm td = true)
    (hnohol : ∀ x ∈ data, isHolidaySyncStr cache x.date = false)
    (hsat : ∃ x ∈ data, dateStrGetDay x.date = 6) :
    predictDayuseRevenue cache data ty tm td =
      calculateAverage
        (((groupByDate data).filter (fun p => dateStrGetDay p.1 == 6)).map
          (fun p => p.2))
        "祝日（土曜日データで代用）" ∧
    (predictDayuseRevenue cache data ty tm td).basis = "祝日（土曜日データで代用）" := by
  have hkeys : ∀ p ∈ groupByDate data, isHolidaySyncStr cache p.1 = false := by
    intro p hp
    rcases groupByDate_key_in_dates data [] p hp with h | ⟨x, hx, hxd⟩
    · simp at h
    · rw [← hxd]
      exact hnohol x hx
  have hfilter :
      (groupByDate data).filter (fun p => isHolidaySyncStr cache p.1) = [] := by
    apply List.filter_eq_nil_iff.mpr
    intro p hp
    simp [hkeys p hp]
  have hhd : predictFromHolidayData cache data = none := by
    unfold predictFromHolidayData
    dsimp only
    rw [hfilter]
    rfl
  obtain ⟨x, hx, hx6⟩ := hsat
  have hk : x.date ∈ (groupByDate data).map (fun p => p.1) :=
    groupByDate_key_of_mem data [] x hx
  rcases List.mem_map.mp hk with ⟨p, hp, hpk⟩
  have hpmem : p ∈ (groupByDate data).filter (fun p => dateStrGetDay p.1 == 6) :=
    List.mem_filter.mpr ⟨hp, by simp [hpk, hx6]⟩
  have hsame : (groupByDate data).filter (fun p => dateStrGetDay p.1 == 6) ≠ [] :=
    List.ne_nil_of_mem hpmem
  have hmain : predictDayuseRevenue cache data ty tm td =
      calculateAverage
        (((groupByDate data).filter (fun p => dateStrGetDay p.1 == 6)).map
          (fun p => p.2))
        "祝日（土曜日データで代用）" := by
    unfold predictDayuseRevenue
    dsimp only
    rw [if_neg (by simpa using hne), if_pos hhol, hhd]
    unfold predictFromDayOfWeek
    dsimp only
    rw [if_neg (by simpa using hsame)]
    rfl
  exact ⟨hmain, by rw [hmain]; exact calculateAverage_basis _ _⟩

/-- C4 witness: a cached New Year's Day target, one Saturday record, no
holiday-dated record — the prediction substitutes the Saturday average. -/
theorem predict_holiday_saturday_fallback_witness :
    predictDayuseRevenue [(2024, ["2024-01-01"])] [⟨"1", "2024-01-06", 8000⟩] 2024 1 1
      = ⟨1, 8000, 8000, true, "祝日（土曜日データで代用）"⟩ := by
  have h := predict_holiday_saturday_fallback [(2024, ["2024-01-01"])]
    [⟨"1", "2024-01-06", 8000⟩] 2024 1 1 (by decide) (by decide) (by decide)
    ⟨⟨"1", "2024-01-06", 8000⟩, by decide, by decide⟩
  rw [h.1]
  decide

/-! ## Merge machinery -/

/-- The map entry a record contributes: keyed by its own id. -/
def pairById (x : JsRecord) : String × JsRecord := (x.id, x)

theorem mapHas_append (m1 m2 : RecMap) (k : String) :
    mapHas (m1 ++ m2) k = (mapHas m1 k || mapHas m2 k) := by
  unfold mapHas
  exact List.any_append

theorem mapSet_of_not_has (m : RecMap) (k : String) (v : JsRecord)
    (h : mapHas m k = false) : mapSet m k v = m ++ [(k, v)] := by
  unfold mapSet
  rw [h]
  simp

theorem mapSet_of_has (m : RecMap) (k : String) (v : JsRecord)
    (h : mapHas m k = true) :
    mapSet m k v = m.map (fun p => if p.1 == k then (k, v) else p) := by
  unfold mapSet
  rw [h]
  simp

theorem mapHas_map_pairById (l : List JsRecord) (k : String) :
    mapHas (l.map pairById) k = l.any (fun x => x.id == k) := by
  induction l with
  | nil => rfl
  | cons y ys ih =>
    show (mapHas (pairById y :: ys.map pairById) k) = _
    simp only [mapHas, List.any_cons] at ih ⊢
    rw [ih]
    rfl

theorem mapGet_map_pairById (l : List JsRecord) (x : JsRecord)
    (hnd : (l.map JsRecord.id).Nodup) (hx : x ∈ l) :
    mapGet (l.map pairById) x.id = x := by
  induction l with
  | nil => simp at hx
  | cons y ys ih =>
    simp only [List.map_cons, List.nodup_cons] at hnd
    rcases List.mem_cons.mp hx with rfl | hx'
    · show mapGet ((x.id, x) :: ys.map pairById) x.id = x
      simp [mapGet]
    · have hne : y.id ≠ x.id := by
        intro he
        exact hnd.1 (he ▸ List.mem_map_of_mem JsRecord.id hx')
      show mapGet ((y.id, y) :: ys.map pairById) x.id = x
      simp only [mapGet]
      rw [if_neg (by simp [hne])]
      exact ih hnd.2 hx'

theorem buildIdMap_go (l : List JsRecord) :
    ∀ acc : RecMap,
      (∀ x ∈ l, x.id ≠ "") → (l.map JsRecord.id).Nodup →
      (∀ x ∈ l, mapHas acc x.id = false) →
      l.foldl (fun m item => if item.id == "" then m else mapSet m item.id item) acc
        = acc ++ l.map pairById := by
  induction l with
  | nil => intro acc _ _ _; simp
  | cons x xs ih =>
    intro acc hid hnd hdis
    have hx : x.id ≠ "" := hid x (by simp)
    simp only [List.map_cons, List.nodup_cons] at hnd
    simp only [List.foldl_cons]
    rw [if_neg (by simp [hx]), mapSet_of_not_has acc x.id x (hdis x (by simp))]
    rw [ih (acc ++ [(x.id, x)]) (fun y hy => hid y (by simp [hy])) hnd.2 ?_]
    · simp [pairById]
    · intro y hy
      rw [mapHas_append]
      have h1 : mapHas acc y.id = false := hdis y (by simp [hy])
      have h2 : mapHas [(x.id, x)] y.id = false := by
        unfold mapHas
        simp only [List.any_cons, List.any_nil, Bool.or_false]
        have : x.id ≠ y.id := by
          intro he
          exact hnd.1 (he ▸ List.mem_map_of_mem JsRecord.id hy)
        simp [this]
      rw [h1, h2]
      rfl

/-- With truthy, pairwise-distinct ids, the first loop of
`mergeDayuseData` maps each record under its own id in order. -/
theorem buildIdMap_eq (existing : List JsRecord)
    (hid : ∀ x ∈ existing, x.id ≠ "")
    (hnd : (existing.map JsRecord.id).Nodup) :
    buildIdMap existing = existing.map pairById := by
  unfold buildIdMap
  rw [buildIdMap_go existing [] hid hnd (fun x _ => rfl)]
  simp

theorem mergeStep_skip (acc : RecMap × Nat × Nat) (item : JsRecord)
    (h : item.id = "") : mergeStep acc item = acc := by
  unfold mergeStep
  rw [if_pos (by simp [h])]

theorem mergeStep_update (acc : RecMap × Nat × Nat) (item : JsRecord)
    (h1 : item.id ≠ "") (h2 : mapHas acc.1 item.id = true) :
    mergeStep acc item =
      (mapSet acc.1 item.id (jsSpread (mapGet acc.1 item.id) item),
       acc.2.1, acc.2.2 + 1) := by
  unfold mergeStep
  rw [if_neg (by simp [h1]), if_pos h2]

theorem mergeStep_add (acc : RecMap × Nat × Nat) (item : JsRecord)
    (h1 : item.id ≠ "") (h2 : mapHas acc.1 item.id = false) :
    mergeStep acc item = (mapSet acc.1 item.id item, acc.2.1 + 1, acc.2.2) := by
  unfold mergeStep
  rw [if_neg (by simp [h1]), if_neg (by simp [h2])]

theorem mergeDayuseData_def (existing newData : List JsRecord) :
    mergeDayuseData existing newData =
      ⟨(newData.foldl mergeStep (buildIdMap existing, 0, 0)).2.1,
       (newData.foldl mergeStep (buildIdMap existing, 0, 0)).2.2,
       (newData.foldl mergeStep (buildIdMap existing, 0, 0)).1.length,
       (newData.foldl mergeStep (buildIdMap existing, 0, 0)).1.map (fun p => p.2)⟩ :=
  rfl

/-! ## C8 -/

/-- C8: on a store of records with truthy, pairwise-distinct ids,
merging one record with an already-present id overwrites that record in
place with the shallow spread `{...old, ...new}` — leaving the total
count unchanged — while merging one record with a new id appends it and
raises the total by exactly one. -/
theorem mergeDayuseData_upsert (existing : List JsRecord) (r : JsRecord)
    (hid : ∀ x ∈ existing, x.id ≠ "")
    (hnd : (existing.map JsRecord.id).Nodup)
    (hr : r.id ≠ "") :
    (r.id ∈ existing.map JsRecord.id →
      (mergeDayuseData existing [r]).data =
        existing.map (fun x => if x.id = r.id then jsSpread x r else x) ∧
      (mergeDayuseData existing [r]).total = existing.length ∧
      (mergeDayuseData existing [r]).added = 0 ∧
      (mergeDayuseData existing [r]).updated = 1) ∧
    (r.id ∉ existing.map JsRecord.id →
      (mergeDayuseData existing [r]).data = existing ++ [r] ∧
      (mergeDayuseData existing [r]).total = existing.length + 1 ∧
      (mergeDayuseData existing [r]).added = 1 ∧
      (mergeDayuseData existing [r]).updated = 0) := by
  have hm0 : buildIdMap existing = existing.map pairById :=
    buildIdMap_eq existing hid hnd
  constructor
  · intro hmem
    have hhas : mapHas (existing.map pairById) r.id = true := by
      rw [mapHas_map_pairById]
      rcases List.mem_map.mp hmem with ⟨x, hx, hxid⟩
      exact List.any_eq_true.mpr ⟨x, hx, by simp [hxid]⟩
    have hstep : [r].foldl mergeStep (buildIdMap existing, 0, 0)
        = (mapSet (existing.map pairById) r.id
            (jsSpread (mapGet (existing.map pairById) r.id) r), 0, 1) := by
      simp only [List.foldl_cons, List.foldl_nil, hm0]
      exact mergeStep_update (existing.map pairById, 0, 0) r hr hhas
    rw [mergeDayuseData_def, hstep]
    dsimp only
    rw [mapSet_of_has _ _ _ hhas]
    refine ⟨?_, by simp, rfl, rfl⟩
    rw [List.map_map, List.map_map]
    apply List.map_congr_left
    intro x hx
    simp only [Function.comp, pairById]
    by_cases hxe : x.id = r.id
    · rw [if_pos (by simp [hxe]), if_pos hxe]
      have hget := mapGet_map_pairById existing x hnd hx
      rw [hxe] at hget
      rw [hget]
    · rw [if_neg (by simp [hxe]), if_neg hxe]
  · intro hmem
    have hhas : mapHas (existing.map pairById) r.id = false := by
      rw [mapHas_map_pairById]
      apply List.any_eq_false.mpr
      intro x hx
      simp only [beq_iff_eq]
      intro he
      exact hmem (he ▸ List.mem_map_of_mem JsRecord.id hx)
    have hstep : [r].foldl mergeStep (buildIdMap existing, 0, 0)
        = (existing.map pairById ++ [(r.id, r)], 1, 0) := by
      simp only [List.foldl_cons, List.foldl_nil, hm0]
      rw [mergeStep_add (existing.map pairById, 0, 0) r hr hhas]
      rw [mapSet_of_not_has _ _ _ hhas]
    rw [mergeDayuseData_def, hstep]
    dsimp only
    refine ⟨?_, by simp, rfl, rfl⟩
    rw [List.map_append, List.map_map]
    simp only [List.map_cons, List.map_nil]
    have hidm : List.map ((fun p : String × JsRecord => p.2) ∘ pairById) existing
        = existing :=
      (List.map_congr_left fun x _ => rfl).trans (List.map_id existing)
    rw [hidm]

/-- C8 witness: overwriting the record with id `"a"` keeps the total at
1 and replaces its price field; adding a record with fresh id `"b"`
raises the total to 2. -/
theorem mergeDayuseData_upsert_witness :
    (mergeDayuseData [⟨"a", [("price", JsValue.num 5000)]⟩]
        [⟨"a", [("price", JsValue.num 9000)]⟩]).data
      = [⟨"a", [("price", JsValue.num 9000)]⟩] ∧
    (mergeDayuseData [⟨"a", [("price", JsValue.num 5000)]⟩]
        [⟨"b", [("date", JsValue.str "2024-01-08")]⟩]).total = 2 := by
  constructor
  · have h := (mergeDayuseData_upsert [⟨"a", [("price", JsValue.num 5000)]⟩]
      ⟨"a", [("price", JsValue.num 9000)]⟩ (by decide) (by decide) (by decide)).1
      (by decide)
    rw [h.1]
    decide
  · have h := (mergeDayuseData_upsert [⟨"a", [("price", JsValue.num 5000)]⟩]
      ⟨"b", [("date", JsValue.str "2024-01-08")]⟩ (by decide) (by decide)
      (by decide)).2 (by decide)
    exact h.2.1

/-! ## C10 -/

/-- Well-formedness of the merge map: every entry is stored under its
own truthy id, and the keys are pairwise distinct. -/
def WfRecMap (m : RecMap) : Prop :=
  (∀ p ∈ m, p.2.id = p.1 ∧ p.1 ≠ "") ∧ (m.map (fun p => p.1)).Nodup

theorem mapSet_wf (m : RecMap) (k : String) (v : JsRecord)
    (hm : WfRecMap m) (hv : v.id = k) (hk : k ≠ "") :
    WfRecMap (mapSet m k v) := by
  by_cases hh : mapHas m k = true
  · rw [mapSet_of_has m k v hh]
    constructor
    · intro p hp
      rcases List.mem_map.mp hp with ⟨q, hq, rfl⟩
      by_cases hq1 : q.1 = k
      · rw [if_pos (by simp [hq1])]
        exact ⟨hv, hk⟩
      · rw [if_neg (by simp [hq1])]
        exact hm.1 q hq
    · have hkeys : ((m.map (fun p => if p.1 == k then (k, v) else p)).map
          (fun p => p.1)) = m.map (fun p => p.1) := by
        rw [List.map_map]
        apply List.map_congr_left
        intro q hq
        simp only [Function.comp]
        by_cases hq1 : q.1 = k
        · rw [if_pos (by simp [hq1])]
          exact hq1.symm
        · rw [if_neg (by simp [hq1])]
      rw [hkeys]
      exact hm.2
  · rw [mapSet_of_not_has m k v (by simpa using hh)]
    constructor
    · intro p hp
      rcases List.mem_append.mp hp with hp | hp
      · exact hm.1 p hp
      · simp only [List.mem_singleton] at hp
        subst hp
        exact ⟨hv, hk⟩
    · rw [List.map_append]
      simp only [List.map_cons, List.map_nil]
      rw [List.nodup_append]
      refine ⟨hm.2, List.nodup_singleton k, ?_⟩
      intro a ha hak
      simp only [List.mem_singleton] at hak
      subst hak
      rcases List.mem_map.mp ha with ⟨q, hq, hqk⟩
      have : mapHas m a = true := by
        unfold mapHas
        exact List.any_eq_true.mpr ⟨q, hq, by simp [hqk]⟩
      rw [this] at hh
      exact hh rfl

theorem foldl_mergeStep_wf (l : List JsRecord) :
    ∀ acc : RecMap × Nat × Nat, WfRecMap acc.1 →
      WfRecMap (l.foldl mergeStep acc).1 := by
  induction l with
  | nil => intro acc h; exact h
  | cons x xs ih =>
    intro acc h
    simp only [List.foldl_cons]
    apply ih
    by_cases hx : x.id = ""
    · rw [mergeStep_skip acc x hx]
      exact h
    · by_cases hh : mapHas acc.1 x.id = true
      · rw [mergeStep_update acc x hx hh]
        exact mapSet_wf acc.1 x.id _ h rfl hx
      · rw [mergeStep_add acc x hx (by simpa using hh)]
        exact mapSet_wf acc.1 x.id x h rfl hx

theorem foldl_build_wf (l : List JsRecord) :
    ∀ acc : RecMap, WfRecMap acc →
      WfRecMap (l.foldl
        (fun m item => if item.id == "" then m else mapSet m item.id item) acc) := by
  induction l with
  | nil => intro acc h; exact h
  | cons x xs ih =>
    intro acc h
    simp only [List.foldl_cons]
    apply ih
    by_cases hx : x.id = ""
    · rw [if_pos (by simp [hx])]
      exact h
    · rw [if_neg (by simp [hx])]
      exact mapSet_wf acc x.id x h rfl hx

theorem buildIdMap_wf (l : List JsRecord) : WfRecMap (buildIdMap l) :=
  foldl_build_wf l [] ⟨by simp, by simp⟩

theorem foldl_mergeStep_filter (l : List JsRecord) :
    ∀ acc : RecMap × Nat × Nat,
      l.foldl mergeStep acc
        = (l.filter (fun x => !(x.id == ""))).foldl mergeStep acc := by
  induction l with
  | nil => intro acc; rfl
  | cons x xs ih =>
    intro acc
    by_cases hx : x.id = ""
    · rw [List.foldl_cons, mergeStep_skip acc x hx,
        List.filter_cons_of_neg (by simp [hx])]
      exact ih acc
    · rw [List.filter_cons_of_pos (by simp [hx]), List.foldl_cons,
        List.foldl_cons]
      exact ih (mergeStep acc x)

theorem foldl_build_filter (l : List JsRecord) :
    ∀ acc : RecMap,
      l.foldl (fun m item => if item.id == "" then m else mapSet m item.id item) acc
        = (l.filter (fun x => !(x.id == ""))).foldl
            (fun m item => if item.id == "" then m else mapSet m item.id item) acc := by
  induction l with
  | nil => intro acc; rfl
  | cons x xs ih =>
    intro acc
    by_cases hx : x.id = ""
    · rw [List.foldl_cons, if_pos (by simp [hx]),
        List.filter_cons_of_neg (by simp [hx])]
      exact ih acc
    · rw [List.filter_cons_of_pos (by simp [hx]), List.foldl_cons,
        List.foldl_cons]
      exact ih _

/-- C10: `mergeDayuseData` ignores every existing record and every
incoming record without a truthy id (merging is unchanged by dropping
them first, so they count neither as added nor as updated and are not
kept); every record of the merged array has a truthy id, the kept ids
are pairwise distinct, and the returned total is the number of records
kept. -/
theorem mergeDayuseData_id_invariants (existing newData : List JsRecord) :
    mergeDayuseData existing newData =
      mergeDayuseData (existing.filter (fun x => !(x.id == "")))
        (newData.filter (fun x => !(x.id == ""))) ∧
    (∀ x ∈ (mergeDayuseData existing newData).data, x.id ≠ "") ∧
    ((mergeDayuseData existing newData).data.map JsRecord.id).Nodup ∧
    (mergeDayuseData existing newData).total
      = (mergeDayuseData existing newData).data.length := by
  have hwf : WfRecMap (newData.foldl mergeStep (buildIdMap existing, 0, 0)).1 :=
    foldl_mergeStep_wf newData (buildIdMap existing, 0, 0) (buildIdMap_wf existing)
  refine ⟨?_, ?_, ?_, ?_⟩
  · rw [mergeDayuseData_def, mergeDayuseData_def]
    have hb : buildIdMap (existing.filter (fun x => !(x.id == "")))
        = buildIdMap existing := by
      unfold buildIdMap
      exact (foldl_build_filter existing []).symm
    rw [hb, ← foldl_mergeStep_filter newData (buildIdMap existing, 0, 0)]
  · intro x hx
    rw [mergeDayuseData_def] at hx
    dsimp only at hx
    rcases List.mem_map.mp hx with ⟨p, hp, rfl⟩
    rcases hwf.1 p hp with ⟨hpid, hpk⟩
    rw [hpid]
    exact hpk
  · rw [mergeDayuseData_def]
    dsimp only
    rw [List.map_map]
    have hids : (newData.foldl mergeStep (buildIdMap existing, 0, 0)).1.map
          (JsRecord.id ∘ fun p => p.2)
        = (newData.foldl mergeStep (buildIdMap existing, 0, 0)).1.map
          (fun p => p.1) :=
      List.map_congr_left (fun p hp => (hwf.1 p hp).1)
    rw [hids]
    exact hwf.2
  · rw [mergeDayuseData_def]
    simp

/-- C10 witness: two falsy-id records (one stored, one incoming) are
dropped; the merged store keeps exactly the two truthy ids. -/
theorem mergeDayuseData_id_invariants_witness :
    (mergeDayuseData [⟨"", [("price", JsValue.num 1)]⟩, ⟨"a", []⟩]
        [⟨"", []⟩, ⟨"b", []⟩]).total = 2 := by
  have h := mergeDayuseData_id_invariants
    [⟨"", [("price", JsValue.num 1)]⟩, ⟨"a", []⟩] [⟨"", []⟩, ⟨"b", []⟩]
  rw [h.2.2.2]
  decide

/-! ## C1, C5, C6, C7 -/

/-- C1 counterexample: for the history
`[{id:1,date:"2024-01-08",price:5000},{id:2,date:"2024-01-15",price:7000}]`
and target 2024-01-22 (a Monday, no holiday cache entry), `predict` does
not return `count = 2` and `avgPrice = 3000` as the claim states. -/
theorem predict_monday_scenario_counterexample :
    ¬ ((predictDayuseRevenue []
          [⟨"1", "2024-01-08", 5000⟩, ⟨"2", "2024-01-15", 7000⟩] 2024 1 22).count = 2 ∧
       (predictDayuseRevenue []
          [⟨"1", "2024-01-08", 5000⟩, ⟨"2", "2024-01-15", 7000⟩] 2024 1 22).avgPrice = 3000) := by
  decide

/-- C1 (amended): on that history and target, `predict` returns
`count = 1` (the mean of the two per-Monday counts), `revenue = 6000`,
`avgPrice = 6000`, `hasData = true`, and the Monday-average basis. -/
theorem predict_monday_scenario :
    predictDayuseRevenue []
        [⟨"1", "2024-01-08", 5000⟩, ⟨"2", "2024-01-15", 7000⟩] 2024 1 22
      = ⟨1, 6000, 6000, true, "月曜日の過去平均"⟩ := by
  decide

/-- C5 counterexample: after a failed fetch for year 2024 the cache has
no entry for 2024 at all — the empty table returned by the `catch`
branch is not cached — and a second call fetches again. -/
theorem fetchHolidays_failure_counterexample :
    lookupYear (fetchHolidays (fun _ => none) [] 2024).cache 2024 = none ∧
    (fetchHolidays (fun _ => none)
        (fetchHolidays (fun _ => none) [] 2024).cache 2024).fetched = true := by
  decide

/-- C5 (amended): a cached year is never re-fetched and is answered from
the cache; on fetch failure of an uncached year the call returns the
empty table, leaves the cache unchanged (so the year stays uncached and
a later call fetches again), and synchronous lookups for that year keep
answering "not a holiday"; a successful fetch caches the table. -/
theorem fetchHolidays_caching (net : Nat → Option (List String))
    (cache : HolidayCache) (year : Nat) :
    (∀ tbl, lookupYear cache year = some tbl →
      fetchHolidays net cache year = ⟨tbl, cache, false⟩) ∧
    (lookupYear cache year = none →
      (net year = none →
        fetchHolidays net cache year = ⟨[], cache, true⟩ ∧
        ∀ m d, isHolidaySyncYMD cache year m d = false) ∧
      (∀ tbl, net year = some tbl →
        fetchHolidays net cache year = ⟨tbl, cache ++ [(year, tbl)], true⟩)) := by
  refine ⟨fun tbl h => ?_, fun h => ⟨fun hn => ⟨?_, fun m d => ?_⟩, fun tbl hn => ?_⟩⟩
  · unfold fetchHolidays
    rw [h]
  · unfold fetchHolidays
    rw [h, hn]
  · unfold isHolidaySyncYMD
    rw [h]
  · unfold fetchHolidays
    rw [h, hn]

/-- C5 witness: the amended caching behaviour at a concrete failing
network and empty cache. -/
theorem fetchHolidays_caching_witness :
    fetchHolidays (fun _ => none) [] 2024 = ⟨[], [], true⟩ ∧
    isHolidaySyncYMD [] 2024 1 1 = false := by
  have h := (fetchHolidays_caching (fun _ => none) [] 2024).2 rfl
  exact ⟨(h.1 rfl).1, (h.1 rfl).2 1 1⟩

/-- C6: with `monthlyTarget = 300000`, `daysInMonth = 30`, no manual
day-use entry, prediction revenue 4000, `totalRooms = 50` and
`bookedStayRooms = 48`, the pricing computation yields
`dailyTarget = 10000`, `dayuseRevenue = 4000`, `remainingRooms = 2` and
`minimumPrice = ceil(6000 / 2) = 3000`. -/
theorem computePricing_scenario :
    computePricing 300000 30 50 0 0 48 4000 = ⟨10000, 4000, 2, 3000⟩ := by
  decide

/-- C7: the remaining-rooms floor — `max(1, totalRooms - bookedStayRooms)`
is at least 1 for every pair of integer inputs, including when
`bookedStayRooms ≥ totalRooms`, and so is the `remainingRooms` field of
every pricing computation, guarding the `minimumPrice` division. -/
theorem remainingRooms_ge_one :
    (∀ totalRooms stay : Int, 1 ≤ remainingRoomsInt totalRooms stay) ∧
    (∀ mt dim tr dc dap sc pr : Nat,
      1 ≤ (computePricing mt dim tr dc dap sc pr).remainingRooms) := by
  constructor
  · intro t s
    exact le_max_left 1 (t - s)
  · intro mt dim tr dc dap sc pr
    show 1 ≤ (remainingRoomsInt (tr : Int) (sc : Int)).toNat
    have h : (1 : Int) ≤ remainingRoomsInt (tr : Int) (sc : Int) :=
      le_max_left 1 ((tr : Int) - (sc : Int))
    omega
